import Mathlib

/-!
Verification development for the RRC simulator core
(`srsRAN_5G/channel_models.py` and
`srsRAN_5G/enhanced_ue_mobility_controller_v2.py`).

The development is a shallow embedding of three layers of the source:

1. the channel model (`Position`, `SimplifiedChannelModel`,
   `ExternalChannelModelPlaceholder`), over the reals, with the random
   fading draw of each `calculate_rsrp` call made an explicit parameter;
2. the UE mobility step (`UE.move`, `UE.record_position`), with the
   random draws (`random.random()` comparisons and the random heading)
   made explicit parameters;
3. the connection-management layer (`UE.connect_to_gnb`,
   `NetworkSimulator.update_connections`, `log_event`, `log_rsrp`),
   with the channel model abstracted into an injected deterministic
   quality function `q : gnb_id → ue_id → α` over an arbitrary linear
   ordered ring `α` (the spec describes the channel model as a pure
   function of station and position; within one tick the UE position is
   fixed, so per-tick quality is a function of the pair of identities;
   the general theorems hold for any `α`, concrete instances are
   evaluated at `α = ℤ`).  Python object identity on `GNB`/`UE`
   objects is modelled by their numeric identifiers, which are distinct
   in the simulator.
-/

/-! ### Layer 1: geometry and channel models (`channel_models.py`) -/

/-- `Position` from `channel_models.py`: a point of the 2D plane. -/
structure Position where
  x : ℝ
  y : ℝ

/-- `Position.distance_to`: Euclidean distance between two positions. -/
noncomputable def Position.distance_to (p other : Position) : ℝ :=
  Real.sqrt ((p.x - other.x) ^ 2 + (p.y - other.y) ^ 2)

/-- The `GNB` class of the controller, restricted to the fields the channel
model reads (`position`, `frequency` in MHz, `power` in dBm) plus the
identifier used to model Python object identity.  The mutable
`connected_ues` back-reference lives in `NetState` below. -/
structure GNB where
  gnb_id : ℕ
  position : Position
  frequency : ℝ
  power : ℝ

/-- The clamped distance in kilometers computed at the start of
`SimplifiedChannelModel.calculate_rsrp`: station-to-target distance
divided by 1000, and set to `0.001` whenever it is below `0.001`. -/
noncomputable def distance_km (gnb : GNB) (ue_position : Position) : ℝ :=
  if gnb.position.distance_to ue_position / 1000 < 0.001 then 0.001
  else gnb.position.distance_to ue_position / 1000

/-- `SimplifiedChannelModel.calculate_rsrp`.  The uniform random fading
draw (`random.uniform(0, 5)`) is the explicit `fading` parameter.  The
`try/except ValueError` around the two `math.log10` calls is modelled by
returning `⊥` (the float `-inf` of the source) exactly when one of the
logarithm arguments is non-positive. -/
noncomputable def calculate_rsrp (gnb : GNB) (ue_position : Position)
    (fading : ℝ) : WithBot ℝ :=
  if gnb.frequency ≤ 0 ∨ distance_km gnb ue_position ≤ 0 then ⊥
  else
    ((gnb.power - (32.4 + 20 * Real.logb 10 gnb.frequency
        + 20 * Real.logb 10 (distance_km gnb ue_position)) - fading : ℝ)
      : WithBot ℝ)

/-- Linear power `10 ** (rsrp / 10.0)` used by `calculate_sinr`; the
float `-inf` maps to linear power `0`, as in the source. -/
noncomputable def powLin : WithBot ℝ → ℝ
  | ⊥ => 0
  | (v : ℝ) => (10 : ℝ) ^ (v / 10)

/-- `SimplifiedChannelModel.calculate_sinr`.  Each inner
`calculate_rsrp` call draws its own fading, modelled by the per-station
fading assignment `fad`.  The `interfering_gnb != gnb` identity test is
modelled on identifiers.  The result is an extended real: `⊤` for the
`float("inf")` branch and `⊥` for the `except ValueError` branch (the
`math.log10` argument being non-positive). -/
noncomputable def calculate_sinr (gnb : GNB) (ue_position : Position)
    (interfering_gnbs : List GNB) (fad : GNB → ℝ) : EReal :=
  let signal := powLin (calculate_rsrp gnb ue_position (fad gnb))
  let interference :=
    ((interfering_gnbs.filter (fun g => g.gnb_id != gnb.gnb_id)).map
      (fun g => powLin (calculate_rsrp g ue_position (fad g)))).sum
  let noise := (10 : ℝ) ^ ((-100 : ℝ) / 10)
  if interference + noise = 0 then ⊤
  else if signal / (interference + noise) ≤ 0 then ⊥
  else ((10 * Real.logb 10 (signal / (interference + noise)) : ℝ) : EReal)

/-- `SimplifiedChannelModel.is_in_coverage`: the freshly drawn RSRP
sample is at least the threshold (default −110 dBm). -/
noncomputable def is_in_coverage (gnb : GNB) (ue_position : Position)
    (fading : ℝ) (threshold : ℝ) : Prop :=
  (threshold : WithBot ℝ) ≤ calculate_rsrp gnb ue_position fading

/-- The interface an external channel simulator would present to
`ExternalChannelModelPlaceholder` (the `external_simulator_api`
constructor argument): one operation per `ChannelModel` method. -/
structure ExternalApi where
  rsrp : GNB → Position → WithBot ℝ
  sinr : GNB → Position → List GNB → EReal
  coverage : GNB → Position → ℝ → Prop

/-- `ExternalChannelModelPlaceholder.calculate_rsrp`.  The source reads
`if self.api: pass` and then unconditionally instantiates a
`SimplifiedChannelModel` and delegates to it; the `api` argument is
never consulted. -/
noncomputable def external_calculate_rsrp (api : Option ExternalApi)
    (gnb : GNB) (ue_position : Position) (fading : ℝ) : WithBot ℝ :=
  match api with
  | some _ => calculate_rsrp gnb ue_position fading
  | none => calculate_rsrp gnb ue_position fading

/-- `ExternalChannelModelPlaceholder.calculate_sinr`: same shape, the
`api` is never consulted. -/
noncomputable def external_calculate_sinr (api : Option ExternalApi)
    (gnb : GNB) (ue_position : Position) (interfering_gnbs : List GNB)
    (fad : GNB → ℝ) : EReal :=
  match api with
  | some _ => calculate_sinr gnb ue_position interfering_gnbs fad
  | none => calculate_sinr gnb ue_position interfering_gnbs fad

/-- `ExternalChannelModelPlaceholder.is_in_coverage`: same shape, the
`api` is never consulted. -/
noncomputable def external_is_in_coverage (api : Option ExternalApi)
    (gnb : GNB) (ue_position : Position) (fading : ℝ)
    (threshold : ℝ) : Prop :=
  match api with
  | some _ => is_in_coverage gnb ue_position fading threshold
  | none => is_in_coverage gnb ue_position fading threshold

/-- Modelled from the spec: the routing behaviour the specification
ascribes to the external variant — "it forwards to the default model's
three operations unless an external data source is supplied, in which
case calls should be routed there instead".  Stated for the
received-power operation; used only to compare against the source's
`external_calculate_rsrp`. -/
noncomputable def external_calculate_rsrp_routed (api : Option ExternalApi)
    (gnb : GNB) (ue_position : Position) (fading : ℝ) : WithBot ℝ :=
  match api with
  | some a => a.rsrp gnb ue_position
  | none => calculate_rsrp gnb ue_position fading

/-! ### Layer 2: UE mobility (`UE.move`, `UE.record_position`) -/

/-- The `mobility_type` tag of the `UE` class. -/
inductive Mobility
  | static
  | random_walk
  | directed
  | trajectory
  | group
  deriving DecidableEq

/-- The mutable state of a `UE` object read and written by `UE.move`:
position, mobility parameters and the movement trace.  A `group` UE
follows `group_center.position + group_offset`; since `move` only reads
the leader's current position, the leader is modelled by that position
(`none` when no group center was set). -/
structure UEMove where
  x : ℝ
  y : ℝ
  mobility_type : Mobility
  speed : ℝ
  direction : ℝ
  is_moving : Bool
  waypoints : List (ℝ × ℝ)
  current_waypoint_index : ℕ
  group_center : Option (ℝ × ℝ)
  group_offset_x : ℝ
  group_offset_y : ℝ
  trajectory : List (ℝ × ℝ × ℝ)

/-- `UE.record_position`: append `(x, y, time.time())` to the trace; the
wall-clock reading is the explicit parameter `t`. -/
def UEMove.record_position (st : UEMove) (t : ℝ) : UEMove :=
  { st with trajectory := st.trajectory ++ [(st.x, st.y, t)] }

/-- The random draws consumed by one `UE.move` call: the three
`random.random() < p` comparisons (resume, stop, direction change) and
the uniform random heading `random.uniform(0, 2π)`. -/
structure MoveRand where
  resumeDraw : Bool
  stopDraw : Bool
  dirChangeDraw : Bool
  newDir : ℝ

/-- Python float `a % b` (sign of the divisor): `a - b * ⌊a / b⌋`. -/
noncomputable def fmod (a b : ℝ) : ℝ := a - b * (⌊a / b⌋ : ℤ)

/-- Python `math.atan2 y x`, via the complex argument of `x + y·i`. -/
noncomputable def atan2 (y x : ℝ) : ℝ := Complex.arg ⟨x, y⟩

/-- `UE.move`, translated branch for branch.  `boundary` is the
simulation area `(area_x, area_y)` and `t` the wall-clock time used by
`record_position`.  Note that the `trajectory` branch with an empty
waypoint list and the `group` branch with no group center return
without calling `record_position`, exactly as the source does.  The
source indexes `waypoints[current_waypoint_index]` (maintained below
the length by the modular increment); out-of-range access is modelled
by `getD` with an irrelevant default. -/
noncomputable def move (st : UEMove) (r : MoveRand) (time_step : ℝ)
    (boundary : ℝ × ℝ) (t : ℝ) : UEMove :=
  if ¬ st.is_moving ∧ ¬ r.resumeDraw then
    st.record_position t
  else
    let st := { st with is_moving := true }
    if r.stopDraw then
      ({ st with is_moving := false }).record_position t
    else
      match st.mobility_type with
      | .static => st.record_position t
      | .random_walk =>
          let dir0 := if r.dirChangeDraw then r.newDir else st.direction
          let distance := st.speed * time_step
          let nx := st.x + distance * Real.cos dir0
          let ny := st.y + distance * Real.sin dir0
          let px : ℝ × ℝ :=
            if nx < 0 then (-nx, Real.pi - dir0)
            else if nx > boundary.1 then (2 * boundary.1 - nx, Real.pi - dir0)
            else (nx, dir0)
          let py : ℝ × ℝ :=
            if ny < 0 then (-ny, -px.2)
            else if ny > boundary.2 then (2 * boundary.2 - ny, -px.2)
            else (ny, px.2)
          ({ st with
              x := px.1
              y := py.1
              direction := fmod py.2 (2 * Real.pi) }).record_position t
      | .directed =>
          let distance := st.speed * time_step
          let nx := st.x + distance * Real.cos st.direction
          let ny := st.y + distance * Real.sin st.direction
          ({ st with
              x := fmod nx boundary.1
              y := fmod ny boundary.2 }).record_position t
      | .trajectory =>
          if st.waypoints = [] then st
          else
            let target := st.waypoints.getD st.current_waypoint_index (0, 0)
            let distance_to_target :=
              Real.sqrt ((st.x - target.1) ^ 2 + (st.y - target.2) ^ 2)
            let move_distance := st.speed * time_step
            if distance_to_target ≤ move_distance then
              ({ st with
                  x := target.1
                  y := target.2
                  current_waypoint_index :=
                    (st.current_waypoint_index + 1) % st.waypoints.length
                }).record_position t
            else
              let dir := atan2 (target.2 - st.y) (target.1 - st.x)
              ({ st with
                  x := st.x + move_distance * Real.cos dir
                  y := st.y + move_distance * Real.sin dir
                }).record_position t
      | .group =>
          match st.group_center with
          | none => st
          | some center =>
              let target_x := center.1 + st.group_offset_x
              let target_y := center.2 + st.group_offset_y
              let dx := target_x - st.x
              let dy := target_y - st.y
              let distance_to_target := Real.sqrt (dx * dx + dy * dy)
              if 0 < distance_to_target then
                let dir := atan2 dy dx
                let move_distance := min (st.speed * time_step) distance_to_target
                ({ st with
                    x := st.x + move_distance * Real.cos dir
                    y := st.y + move_distance * Real.sin dir
                  }).record_position t
              else
                st.record_position t

/-! ### Shared helper lemmas -/

lemma distance_to_nonneg (p q : Position) : 0 ≤ p.distance_to q :=
  Real.sqrt_nonneg _

lemma distance_km_eq_max (gnb : GNB) (p : Position) :
    distance_km gnb p = max (gnb.position.distance_to p / 1000) 0.001 := by
  unfold distance_km
  split
  · rename_i hlt
    exact (max_eq_right hlt.le).symm
  · rename_i hge
    exact (max_eq_left (le_of_not_lt hge)).symm

lemma distance_km_pos (gnb : GNB) (p : Position) : 0 < distance_km gnb p := by
  rw [distance_km_eq_max]
  exact lt_max_of_lt_right (by norm_num)

/-! ### Theorems for the channel-model claims -/

/-- C5: for every station, target position and fading draw, when the
frequency is positive (so the `math.log10` calls succeed),
`calculate_rsrp` returns transmit power minus the path loss
`32.4 + 20 log10(frequency) + 20 log10(distance_km)` minus the fading
term, where `distance_km` is the Euclidean distance in kilometers
clamped to a minimum of 0.001 km. -/
theorem calculate_rsrp_eq_formula (gnb : GNB) (p : Position) (fading : ℝ)
    (h : 0 < gnb.frequency) :
    calculate_rsrp gnb p fading =
      ((gnb.power - (32.4 + 20 * Real.logb 10 gnb.frequency
          + 20 * Real.logb 10 (max (gnb.position.distance_to p / 1000) 0.001))
        - fading : ℝ) : WithBot ℝ) := by
  unfold calculate_rsrp
  rw [if_neg, distance_km_eq_max]
  push_neg
  exact ⟨h, distance_km_pos gnb p⟩

/-- C5 witness: a station of frequency 3350 MHz satisfies the positivity
hypothesis, and the formula holds for it. -/
theorem calculate_rsrp_eq_formula_witness :
    (0 : ℝ) < (GNB.mk 1 ⟨250, 250⟩ 3350 43).frequency ∧
    calculate_rsrp (GNB.mk 1 ⟨250, 250⟩ 3350 43) ⟨250, 250⟩ 2 =
      (((GNB.mk 1 ⟨250, 250⟩ 3350 43).power - (32.4
          + 20 * Real.logb 10 (GNB.mk 1 ⟨250, 250⟩ 3350 43).frequency
          + 20 * Real.logb 10 (max
              ((GNB.mk 1 ⟨250, 250⟩ 3350 43).position.distance_to ⟨250, 250⟩ / 1000)
              0.001))
        - 2 : ℝ) : WithBot ℝ) := by
  refine ⟨by norm_num, ?_⟩
  exact calculate_rsrp_eq_formula (GNB.mk 1 ⟨250, 250⟩ 3350 43) ⟨250, 250⟩ 2
    (by norm_num)

/-- C9: `calculate_rsrp` is a total function, and whenever one of the
two `math.log10` arguments (the frequency or the clamped distance in
kilometers) is non-positive it returns the `-inf` sentinel (`⊥`)
instead of failing; moreover the clamped distance argument is in fact
always positive, so only a non-positive frequency can realize the
sentinel case. -/
theorem calculate_rsrp_sentinel (gnb : GNB) (p : Position) (fading : ℝ)
    (h : gnb.frequency ≤ 0 ∨ distance_km gnb p ≤ 0) :
    calculate_rsrp gnb p fading = ⊥ ∧ 0 < distance_km gnb p := by
  refine ⟨?_, distance_km_pos gnb p⟩
  unfold calculate_rsrp
  rw [if_pos h]

/-- C9 witness: a station of frequency 0 realizes the sentinel case. -/
theorem calculate_rsrp_sentinel_witness :
    ((GNB.mk 1 ⟨0, 0⟩ 0 43).frequency ≤ 0
      ∨ distance_km (GNB.mk 1 ⟨0, 0⟩ 0 43) ⟨5, 5⟩ ≤ 0) ∧
    calculate_rsrp (GNB.mk 1 ⟨0, 0⟩ 0 43) ⟨5, 5⟩ 3 = ⊥ := by
  refine ⟨Or.inl (by norm_num), ?_⟩
  exact (calculate_rsrp_sentinel (GNB.mk 1 ⟨0, 0⟩ 0 43) ⟨5, 5⟩ 3
    (Or.inl (by norm_num))).1

/-- C8 counterexample: with an external data source supplied, the
placeholder's received-power operation still evaluates the default
model (here `⊥`, the station having frequency 0) and not the supplied
source (which returns 0 dBm everywhere), so calls are not routed to the
external source. -/
theorem external_model_not_routed :
    external_calculate_rsrp
        (some ⟨fun _ _ => ((0 : ℝ) : WithBot ℝ), fun _ _ _ => 0,
          fun _ _ _ => True⟩)
        (GNB.mk 1 ⟨0, 0⟩ 0 43) ⟨5, 5⟩ 3 = ⊥ ∧
    external_calculate_rsrp_routed
        (some ⟨fun _ _ => ((0 : ℝ) : WithBot ℝ), fun _ _ _ => 0,
          fun _ _ _ => True⟩)
        (GNB.mk 1 ⟨0, 0⟩ 0 43) ⟨5, 5⟩ 3 = ((0 : ℝ) : WithBot ℝ) ∧
    (⊥ : WithBot ℝ) ≠ ((0 : ℝ) : WithBot ℝ) := by
  refine ⟨?_, rfl, ?_⟩
  · show calculate_rsrp (GNB.mk 1 ⟨0, 0⟩ 0 43) ⟨5, 5⟩ 3 = ⊥
    unfold calculate_rsrp
    rw [if_pos (Or.inl (by norm_num))]
  · simp

/-- C8 as amended: the external placeholder's three operations always
behave identically to the default model — both with no external data
source (the claim's first half, which holds) and with one supplied (the
source is never consulted). -/
theorem external_model_delegates (api : Option ExternalApi) (gnb : GNB)
    (p : Position) (fading : ℝ) (interfering : List GNB) (fad : GNB → ℝ)
    (threshold : ℝ) :
    external_calculate_rsrp api gnb p fading = calculate_rsrp gnb p fading ∧
    external_calculate_sinr api gnb p interfering fad
      = calculate_sinr gnb p interfering fad ∧
    external_is_in_coverage api gnb p fading threshold
      = is_in_coverage gnb p fading threshold ∧
    external_calculate_rsrp none gnb p fading
      = external_calculate_rsrp_routed none gnb p fading := by
  refine ⟨?_, ?_, ?_, rfl⟩ <;> cases api <;> rfl


/-! ### Layer 3: connection management (`connect_to_gnb`,
`NetworkSimulator.update_connections`) -/

/-- The structured records appended by `log_event` in the connection
loop: handover, coverage loss, reconnection, and failure to find a
reconnection target.  The wall-clock timestamp and the message string
are irrelevant to the claims; each record is identified by its kind and
the identities it mentions. -/
inductive Event
  | handover (ue_id : ℕ) (old : Option ℕ) (tgt : ℕ)
  | coverageLost (ue_id : ℕ) (gnb_id : ℕ)
  | reconnected (ue_id : ℕ) (gnb_id : ℕ)
  | noSuitable (ue_id : ℕ)
  deriving DecidableEq

/-- The connection-relevant mutable state of the simulator: per UE the
serving gNB reference (`UE.connected_gnb`, by identifier, `none` when
disconnected), per gNB the `connected_ues` list (by identifier, in list
order), plus the `event_log` and `rsrp_log` sinks.  The dBm quality
values live in an arbitrary linear ordered ring `α` — the source's
floats are idealized as exact numbers; the general theorems hold for
any such `α` (in particular `ℝ` and `ℚ`) and concrete instances are
evaluated at `α = ℤ`. -/
structure NetState (α : Type) where
  conn : ℕ → Option ℕ
  served : ℕ → List ℕ
  event_log : List Event
  rsrp_log : List (ℕ × ℕ × α)

variable {α : Type} [LinearOrderedRing α]

/-- `NetworkSimulator.log_event`, restricted to the structured records
of `Event`. -/
def logEvent (st : NetState α) (e : Event) : NetState α :=
  { st with event_log := st.event_log ++ [e] }

/-- `NetworkSimulator.log_rsrp`: append a `(ue_id, gnb_id, rsrp)`
measurement sample. -/
def logRsrp (st : NetState α) (u g : ℕ) (r : α) : NetState α :=
  { st with rsrp_log := st.rsrp_log ++ [(u, g, r)] }

/-- The served-set update performed by the first half of
`UE.connect_to_gnb`: `if self in self.connected_gnb.connected_ues:
self.connected_gnb.connected_ues.remove(self)` (Python `list.remove`
deletes the first occurrence, which is `List.erase`). -/
def servedAfterDetach (st : NetState α) (u : ℕ) : ℕ → List ℕ := fun g =>
  match st.conn u with
  | some old => if g = old then (st.served g).erase u else st.served g
  | none => st.served g

/-- The served-set update performed by the second half of
`UE.connect_to_gnb`: `if gnb and self not in gnb.connected_ues:
gnb.connected_ues.append(self)`. -/
def servedAfterAttach (st : NetState α) (u : ℕ) (target : Option ℕ) :
    ℕ → List ℕ := fun g =>
  match target with
  | some tg =>
      if g = tg then
        (if u ∈ servedAfterDetach st u tg then servedAfterDetach st u tg
         else servedAfterDetach st u tg ++ [u])
      else servedAfterDetach st u g
  | none => servedAfterDetach st u g

/-- `UE.connect_to_gnb`: no-op when the target equals the current
serving reference, otherwise remove the UE from the old station's
served list, set the serving reference, and append the UE to the new
station's served list when absent. -/
def connect_to_gnb (st : NetState α) (u : ℕ) (target : Option ℕ) :
    NetState α :=
  if st.conn u = target then st
  else
    { st with
        conn := fun v => if v = u then target else st.conn v
        served := servedAfterAttach st u target }

/-- `current_rsrp` of `update_connections`: the serving station's fresh
quality sample, or the float `-inf` (here `⊥`) when disconnected. -/
def currentRsrp (qu : ℕ → α) : Option ℕ → WithBot α
  | some g => ((qu g : α) : WithBot α)
  | none => ⊥

/-- Python `max(l, key=lambda x: x[1])`: the first element with maximal
second component (the running maximum is replaced only on a strict
increase). -/
def maxBySnd (l : List (ℕ × α)) : Option (ℕ × α) :=
  match l with
  | [] => none
  | x :: xs => some (xs.foldl (fun b y => if b.2 < y.2 then y else b) x)

/-- `rsrp_measurements` of `update_connections`: the stations, in
iteration order, whose quality strictly exceeds the −105 dBm
`handover_threshold`, paired with their quality. -/
def rsrpMeasurements (gnbs : List ℕ) (qu : ℕ → α) : List (ℕ × α) :=
  (gnbs.map (fun g => (g, qu g))).filter (fun p => -105 < p.2)

/-- `potential_targets` and `best_candidate` of `update_connections`:
the maximal-quality measurement among those not equal to the current
serving station. -/
def bestCandidate (gnbs : List ℕ) (qu : ℕ → α) (conn0 : Option ℕ) :
    Option (ℕ × α) :=
  maxBySnd ((rsrpMeasurements gnbs qu).filter (fun p => conn0 ≠ some p.1))

/-- The measurement phase of `update_connections` for one UE (lines
before the handover decision): log the serving station's sample when
connected, then log a sample for every non-serving station in
iteration order. -/
def measurementPhase (gnbs : List ℕ) (qu : ℕ → α) (st : NetState α)
    (u : ℕ) : NetState α :=
  gnbs.foldl
    (fun s g => if st.conn u ≠ some g then logRsrp s u g (qu g) else s)
    (match st.conn u with
     | some g => logRsrp st u g (qu g)
     | none => st)

/-- The handover decision of `update_connections` for one UE: if a best
candidate exists, hand over exactly when its quality exceeds the
serving quality plus the 3 dB `a3_offset`, or the serving quality is
below the −105 dBm `handover_threshold` while the candidate's is above
it; on handover, reconnect and append a handover event. -/
def handoverPhase (gnbs : List ℕ) (qu : ℕ → α) (st : NetState α)
    (u : ℕ) : NetState α :=
  match bestCandidate gnbs qu (st.conn u) with
  | some (bg, br) =>
      if currentRsrp qu (st.conn u) + 3 < ((br : α) : WithBot α)
          ∨ (currentRsrp qu (st.conn u) < (((-105 : α)) : WithBot α)
              ∧ (-105 : α) < br) then
        logEvent (connect_to_gnb st u (some bg)) (.handover u (st.conn u) bg)
      else st
  | none => st

/-- One step of the reconnection search of the coverage branch:
`if rsrp > best_reconnect_rsrp and is_in_coverage(gnb, ...)` — replace
the running best on a strict quality improvement when the station is at
or above the −110 dBm `coverage_threshold`. -/
def reconnectStep (qu : ℕ → α) (acc : Option ℕ × WithBot α) (g : ℕ) :
    Option ℕ × WithBot α :=
  if acc.2 < ((qu g : α) : WithBot α) ∧ -110 ≤ qu g
  then (some g, ((qu g : α) : WithBot α)) else acc

/-- The reconnection search of the coverage branch: fold the step over
the stations starting from no candidate and `-inf` (`⊥`). -/
def reconnectSearch (gnbs : List ℕ) (qu : ℕ → α) :
    Option ℕ × WithBot α :=
  gnbs.foldl (reconnectStep qu) ((none : Option ℕ), (⊥ : WithBot α))

/-- The coverage check of `update_connections` for one UE: when
connected and the serving station's quality sample is below the −110
dBm `coverage_threshold` (`not is_in_coverage`), log a coverage-loss
event, detach, and either reconnect to the best station at or above the
threshold (logging a reconnect event) or log a no-suitable-station
event. -/
def coveragePhase (gnbs : List ℕ) (qu : ℕ → α) (st : NetState α)
    (u : ℕ) : NetState α :=
  match st.conn u with
  | some g =>
      if qu g < -110 then
        match (reconnectSearch gnbs qu).1 with
        | some bg =>
            logEvent
              (connect_to_gnb
                (connect_to_gnb (logEvent st (.coverageLost u g)) u none)
                u (some bg))
              (.reconnected u bg)
        | none =>
            logEvent
              (connect_to_gnb (logEvent st (.coverageLost u g)) u none)
              (.noSuitable u)
      else st
  | none => st

/-- The per-UE body of `NetworkSimulator.update_connections`.  The
measurement phase does not modify any serving reference, and the
quality function is deterministic within the tick, so reading
`st.conn u` again at the start of the later phases reproduces the
source's single read of `ue.connected_gnb` (and the coverage phase
reads it after the possible handover, as the source does at line
430). -/
def updateUE (gnbs : List ℕ) (qu : ℕ → α) (st : NetState α) (u : ℕ) :
    NetState α :=
  coveragePhase gnbs qu (handoverPhase gnbs qu (measurementPhase gnbs qu st u) u) u

/-- `NetworkSimulator.update_connections`: the per-UE body folded over
the UEs in list order, with the per-tick quality function
`q : gnb_id → ue_id → α`. -/
def update_connections (gnbs : List ℕ) (q : ℕ → ℕ → α) (ues : List ℕ)
    (st : NetState α) : NetState α :=
  ues.foldl (fun s u => updateUE gnbs (fun g => q g u) s u) st

/-- The two-directional serving/served consistency relation of the
spec: a UE's serving reference names exactly the stations whose served
list contains it, and no served list contains a UE twice. -/
def Consistent (st : NetState α) : Prop :=
  (∀ u g, st.conn u = some g ↔ u ∈ st.served g) ∧
  (∀ u g, (st.served g).count u ≤ 1)

/-! ### Helper lemmas about `connect_to_gnb` -/

lemma mem_servedAfterDetach_of_ne {st : NetState α} {u v : ℕ} (g : ℕ)
    (h : v ≠ u) : v ∈ servedAfterDetach st u g ↔ v ∈ st.served g := by
  unfold servedAfterDetach
  cases st.conn u with
  | none => exact Iff.rfl
  | some old =>
      dsimp only
      by_cases hg : g = old
      · subst hg
        rw [if_pos rfl]
        exact List.mem_erase_of_ne h
      · rw [if_neg hg]

lemma not_mem_servedAfterDetach_self {st : NetState α} (hC : Consistent st)
    (u g : ℕ) : u ∉ servedAfterDetach st u g := by
  unfold servedAfterDetach
  cases hconn : st.conn u with
  | none =>
      intro hmem
      have h := (hC.1 u g).mpr hmem
      rw [hconn] at h
      exact Option.noConfusion h
  | some old =>
      dsimp only
      by_cases hg : g = old
      · subst hg
        rw [if_pos rfl]
        intro hmem
        have hcount : (st.served g).count u ≤ 1 := hC.2 u g
        have h1 : ((st.served g).erase u).count u = (st.served g).count u - 1 :=
          List.count_erase_self u _
        have hpos : 0 < ((st.served g).erase u).count u :=
          List.count_pos_iff.mpr hmem
        omega
      · rw [if_neg hg]
        intro hmem
        have h := (hC.1 u g).mpr hmem
        rw [hconn] at h
        exact hg (Option.some.inj h).symm

lemma count_servedAfterDetach_le {st : NetState α} (u w g : ℕ)
    (h : ∀ g2, (st.served g2).count w ≤ 1) :
    (servedAfterDetach st u g).count w ≤ 1 := by
  unfold servedAfterDetach
  cases st.conn u with
  | none => exact h g
  | some old =>
      dsimp only
      by_cases hg : g = old
      · subst hg
        rw [if_pos rfl]
        rcases eq_or_ne w u with rfl | hwu
        · rw [List.count_erase_self]
          have := h g
          omega
        · rw [List.count_erase_of_ne hwu]
          exact h g
      · rw [if_neg hg]
        exact h g

lemma count_servedAfterAttach_le {st : NetState α} (u w g : ℕ)
    (target : Option ℕ) (h : ∀ g2, (st.served g2).count w ≤ 1) :
    (servedAfterAttach st u target g).count w ≤ 1 := by
  unfold servedAfterAttach
  cases target with
  | none => exact count_servedAfterDetach_le u w g h
  | some tg =>
      dsimp only
      by_cases hg : g = tg
      · subst hg
        rw [if_pos rfl]
        split
        · exact count_servedAfterDetach_le u w g h
        · rename_i hnmem
          rw [List.count_append]
          rcases eq_or_ne w u with rfl | hwu
          · have h0 : (servedAfterDetach st w g).count w = 0 :=
              List.count_eq_zero.mpr hnmem
            rw [h0]
            simp
          · have h0 : ([u] : List ℕ).count w = 0 := by
              simp [List.count_singleton, hwu.symm]
            rw [h0]
            simpa using count_servedAfterDetach_le u w g h
      · rw [if_neg hg]
        exact count_servedAfterDetach_le u w g h

lemma connect_to_gnb_consistent {st : NetState α} (hC : Consistent st)
    (u : ℕ) (target : Option ℕ) :
    Consistent (connect_to_gnb st u target) := by
  unfold connect_to_gnb
  split
  · exact hC
  · constructor
    · intro v g
      show (if v = u then target else st.conn v) = some g
        ↔ v ∈ servedAfterAttach st u target g
      by_cases hv : v = u
      · subst hv
        rw [if_pos rfl]
        unfold servedAfterAttach
        cases target with
        | none =>
            constructor
            · intro h
              exact Option.noConfusion h
            · intro hmem
              exact absurd hmem (not_mem_servedAfterDetach_self hC v g)
        | some tg =>
            dsimp only
            by_cases hg : g = tg
            · subst hg
              rw [if_pos rfl]
              constructor
              · intro _
                split
                · rename_i hmem
                  exact hmem
                · exact List.mem_append_right _ (List.mem_singleton_self v)
              · intro _
                rfl
            · rw [if_neg hg]
              constructor
              · intro h
                exact absurd (Option.some.inj h).symm hg
              · intro hmem
                exact absurd hmem (not_mem_servedAfterDetach_self hC v g)
      · rw [if_neg hv]
        unfold servedAfterAttach
        cases target with
        | none =>
            rw [mem_servedAfterDetach_of_ne g hv]
            exact hC.1 v g
        | some tg =>
            dsimp only
            by_cases hg : g = tg
            · subst hg
              rw [if_pos rfl]
              split
              · rw [mem_servedAfterDetach_of_ne g hv]
                exact hC.1 v g
              · have hsplit : v ∈ servedAfterDetach st u g ++ [u]
                    ↔ v ∈ servedAfterDetach st u g := by
                  simp [List.mem_append, hv]
                rw [hsplit, mem_servedAfterDetach_of_ne g hv]
                exact hC.1 v g
            · rw [if_neg hg, mem_servedAfterDetach_of_ne g hv]
              exact hC.1 v g
    · intro w g
      show (servedAfterAttach st u target g).count w ≤ 1
      exact count_servedAfterAttach_le u w g target (fun g2 => hC.2 w g2)

/-! ### Theorem for claim C10 -/

/-- C10: `connect_to_gnb` is idempotent at the interface — called with
the UE's current serving reference (including `none` when already
disconnected) it returns the state unchanged — and it never drives the
number of occurrences of the UE in any station's served list above
one. -/
theorem connect_to_gnb_idempotent_nodup (st : NetState ℚ) (u : ℕ)
    (target : Option ℕ) :
    (st.conn u = target → connect_to_gnb st u target = st) ∧
    ((∀ g, (st.served g).count u ≤ 1) →
      ∀ g, ((connect_to_gnb st u target).served g).count u ≤ 1) := by
  constructor
  · intro h
    unfold connect_to_gnb
    rw [if_pos h]
  · intro h g
    unfold connect_to_gnb
    split
    · exact h g
    · show (servedAfterAttach st u target g).count u ≤ 1
      exact count_servedAfterAttach_le u u g target h

/-- C10 witness: a disconnected UE reconnected to `none` leaves the
empty network state unchanged and keeps all served-list counts at most
one. -/
theorem connect_to_gnb_idempotent_nodup_witness :
    ((⟨fun _ => none, fun _ => [], [], []⟩ : NetState ℚ).conn 1 = none) ∧
    (∀ g, (((⟨fun _ => none, fun _ => [], [], []⟩ : NetState ℚ)).served g).count 1 ≤ 1) ∧
    connect_to_gnb (⟨fun _ => none, fun _ => [], [], []⟩ : NetState ℚ) 1 none
      = (⟨fun _ => none, fun _ => [], [], []⟩ : NetState ℚ) ∧
    (∀ g, ((connect_to_gnb (⟨fun _ => none, fun _ => [], [], []⟩ : NetState ℚ)
        1 none).served g).count 1 ≤ 1) := by
  refine ⟨rfl, fun g => by simp, ?_, ?_⟩
  · exact (connect_to_gnb_idempotent_nodup _ 1 none).1 rfl
  · exact (connect_to_gnb_idempotent_nodup _ 1 none).2 (fun g => by simp)

/-! ### Preservation lemmas for the per-tick update -/

lemma foldl_preserves {β σ : Type} (P : σ → Prop) (f : σ → β → σ)
    (hf : ∀ s a, P s → P (f s a)) :
    ∀ (l : List β) (s : σ), P s → P (l.foldl f s) := by
  intro l
  induction l with
  | nil => exact fun s hs => hs
  | cons a l ih => exact fun s hs => ih (f s a) (hf s a hs)

lemma consistent_congr {s1 s2 : NetState α} (hc : s2.conn = s1.conn)
    (hs : s2.served = s1.served) (h : Consistent s1) : Consistent s2 := by
  constructor
  · intro u g
    rw [hc, hs]
    exact h.1 u g
  · intro u g
    rw [hs]
    exact h.2 u g

lemma measurementPhase_conn (gnbs : List ℕ) (qu : ℕ → α) (st : NetState α)
    (u : ℕ) : (measurementPhase gnbs qu st u).conn = st.conn := by
  unfold measurementPhase
  refine foldl_preserves (fun (s : NetState α) => s.conn = st.conn) _ ?_ gnbs _ ?_
  · intro s g hs
    dsimp only
    split
    · exact hs
    · exact hs
  · cases st.conn u <;> rfl

lemma measurementPhase_served (gnbs : List ℕ) (qu : ℕ → α) (st : NetState α)
    (u : ℕ) : (measurementPhase gnbs qu st u).served = st.served := by
  unfold measurementPhase
  refine foldl_preserves (fun (s : NetState α) => s.served = st.served) _ ?_ gnbs _ ?_
  · intro s g hs
    dsimp only
    split
    · exact hs
    · exact hs
  · cases st.conn u <;> rfl

lemma consistent_logEvent {st : NetState α} (e : Event) (h : Consistent st) :
    Consistent (logEvent st e) :=
  consistent_congr rfl rfl h

lemma handoverPhase_consistent {st : NetState α} (gnbs : List ℕ)
    (qu : ℕ → α) (u : ℕ) (h : Consistent st) :
    Consistent (handoverPhase gnbs qu st u) := by
  unfold handoverPhase
  cases bestCandidate gnbs qu (st.conn u) with
  | none => exact h
  | some p =>
      obtain ⟨bg, br⟩ := p
      dsimp only
      split
      · exact connect_to_gnb_consistent h u (some bg)
      · exact h

lemma coveragePhase_consistent {st : NetState α} (gnbs : List ℕ)
    (qu : ℕ → α) (u : ℕ) (h : Consistent st) :
    Consistent (coveragePhase gnbs qu st u) := by
  unfold coveragePhase
  cases st.conn u with
  | none => exact h
  | some g =>
      dsimp only
      split
      · cases (reconnectSearch gnbs qu).1 with
        | some bg =>
            dsimp only
            exact consistent_logEvent _ (connect_to_gnb_consistent
              (connect_to_gnb_consistent (consistent_logEvent _ h) u none)
              u (some bg))
        | none =>
            dsimp only
            exact consistent_logEvent _
              (connect_to_gnb_consistent (consistent_logEvent _ h) u none)
      · exact h

lemma updateUE_consistent {st : NetState α} (gnbs : List ℕ) (qu : ℕ → α)
    (u : ℕ) (h : Consistent st) : Consistent (updateUE gnbs qu st u) := by
  unfold updateUE
  exact coveragePhase_consistent gnbs qu u
    (handoverPhase_consistent gnbs qu u
      (consistent_congr (measurementPhase_conn gnbs qu st u)
        (measurementPhase_served gnbs qu st u) h))

lemma update_connections_consistent {st : NetState α} (gnbs : List ℕ)
    (q : ℕ → ℕ → α) (ues : List ℕ) (h : Consistent st) :
    Consistent (update_connections gnbs q ues st) := by
  unfold update_connections
  exact foldl_preserves Consistent _
    (fun s u hs => updateUE_consistent gnbs (fun g => q g u) u hs) ues st h

/-! ### Theorem for claim C1 -/

/-- C1: in any consistent state the claim's two directional conditions
hold — a UE whose serving reference is station `g` is a member of `g`'s
served list, and a UE with a null serving reference appears in no
served list — and every `connect_to_gnb` transition (attach, handover,
detach to null) as well as every full `update_connections` pass
preserves the two-directional consistency relation, so the relation
holds at every tick boundary. -/
theorem serving_served_consistency (st : NetState ℚ) (hC : Consistent st)
    (u0 : ℕ) (target : Option ℕ) (gnbs ues : List ℕ) (q : ℕ → ℕ → ℚ) :
    (∀ u g, st.conn u = some g → u ∈ st.served g) ∧
    (∀ u, st.conn u = none → ∀ g, u ∉ st.served g) ∧
    Consistent (connect_to_gnb st u0 target) ∧
    Consistent (update_connections gnbs q ues st) := by
  refine ⟨fun u g h => (hC.1 u g).mp h, ?_, ?_, ?_⟩
  · intro u hnone g hmem
    have h := (hC.1 u g).mpr hmem
    rw [hnone] at h
    exact Option.noConfusion h
  · exact connect_to_gnb_consistent hC u0 target
  · exact update_connections_consistent gnbs q ues hC

/-- C1 witness: the empty network state (every UE disconnected, every
served list empty) is consistent, and the theorem applies to it. -/
theorem serving_served_consistency_witness :
    Consistent (⟨fun _ => none, fun _ => [], [], []⟩ : NetState ℚ) ∧
    Consistent (connect_to_gnb (⟨fun _ => none, fun _ => [], [], []⟩ : NetState ℚ)
      1 (some 2)) ∧
    Consistent (update_connections [1, 2] (fun _ _ => -100) [1]
      (⟨fun _ => none, fun _ => [], [], []⟩ : NetState ℚ)) := by
  have hC : Consistent (⟨fun _ => none, fun _ => [], [], []⟩ : NetState ℚ) := by
    constructor
    · intro u g
      simp
    · intro u g
      simp
  refine ⟨hC, ?_, ?_⟩
  · exact (serving_served_consistency _ hC 1 (some 2) [] [] (fun _ _ => 0)).2.2.1
  · exact (serving_served_consistency _ hC 1 (some 2) [1, 2] [1]
      (fun _ _ => -100)).2.2.2

/-! ### Characterization of the best-candidate selection -/

lemma connect_to_gnb_event_log (st : NetState α) (u : ℕ) (target : Option ℕ) :
    (connect_to_gnb st u target).event_log = st.event_log := by
  unfold connect_to_gnb
  split <;> rfl

lemma foldl_max_aux (l : List (ℕ × α)) (b : ℕ × α) :
    (l.foldl (fun b y => if b.2 < y.2 then y else b) b = b
      ∨ l.foldl (fun b y => if b.2 < y.2 then y else b) b ∈ l)
    ∧ b.2 ≤ (l.foldl (fun b y => if b.2 < y.2 then y else b) b).2
    ∧ ∀ x ∈ l, x.2 ≤ (l.foldl (fun b y => if b.2 < y.2 then y else b) b).2 := by
  induction l generalizing b with
  | nil => exact ⟨Or.inl rfl, le_refl _, by simp⟩
  | cons a l ih =>
      obtain ⟨hmem, hle, hall⟩ := ih (if b.2 < a.2 then a else b)
      rw [List.foldl_cons]
      refine ⟨?_, ?_, ?_⟩
      · rcases hmem with h | h
        · rw [h]
          split
          · exact Or.inr (List.mem_cons_self a l)
          · exact Or.inl rfl
        · exact Or.inr (List.mem_cons_of_mem a h)
      · refine le_trans ?_ hle
        split
        · rename_i hlt
          exact le_of_lt hlt
        · exact le_refl _
      · intro x hx
        rcases List.mem_cons.mp hx with rfl | hx
        · refine le_trans ?_ hle
          split
          · exact le_refl _
          · rename_i hnlt
            exact le_of_not_lt hnlt
        · exact hall x hx

lemma maxBySnd_spec {l : List (ℕ × α)} {p : ℕ × α} (h : maxBySnd l = some p) :
    p ∈ l ∧ ∀ x ∈ l, x.2 ≤ p.2 := by
  cases l with
  | nil => exact Option.noConfusion h
  | cons a l =>
      unfold maxBySnd at h
      obtain ⟨hmem, hle, hall⟩ := foldl_max_aux l a
      have hp : p = l.foldl (fun b y => if b.2 < y.2 then y else b) a :=
        (Option.some.inj h).symm
      subst hp
      refine ⟨?_, ?_⟩
      · rcases hmem with h1 | h1
        · rw [h1]
          exact List.mem_cons_self a l
        · exact List.mem_cons_of_mem a h1
      · intro x hx
        rcases List.mem_cons.mp hx with rfl | hx
        · exact hle
        · exact hall x hx

lemma bestCandidate_spec {gnbs : List ℕ} {qu : ℕ → α} {conn0 : Option ℕ}
    {c : ℕ} {r : α} (h : bestCandidate gnbs qu conn0 = some (c, r)) :
    c ∈ gnbs ∧ qu c = r ∧ -105 < r ∧ conn0 ≠ some c ∧
    ∀ g ∈ gnbs, conn0 ≠ some g → -105 < qu g → qu g ≤ r := by
  unfold bestCandidate at h
  obtain ⟨hmem, hmax⟩ := maxBySnd_spec h
  have hmem' := hmem
  simp only [List.mem_filter, rsrpMeasurements, List.mem_map,
    decide_eq_true_eq] at hmem'
  obtain ⟨⟨⟨g, hg, hEq⟩, hgt⟩, hne⟩ := hmem'
  injection hEq with h1 h2
  subst h1
  subst h2
  refine ⟨hg, rfl, hgt, hne, ?_⟩
  intro g2 hg2 hne2 hgt2
  have hmem2 : (g2, qu g2)
      ∈ (rsrpMeasurements gnbs qu).filter (fun p => conn0 ≠ some p.1) := by
    simp only [List.mem_filter, rsrpMeasurements, List.mem_map,
      decide_eq_true_eq]
    exact ⟨⟨⟨g2, hg2, rfl⟩, hgt2⟩, hne2⟩
  simpa using hmax (g2, qu g2) hmem2

/-! ### Theorem for claim C2 -/

/-- C2: whenever a best candidate `(c, r)` exists it is a
maximum-quality station above the −105 dBm measurement threshold,
distinct from the current server; the handover phase performs a
handover (connects to `c` and appends a handover event) exactly when
`r` exceeds the serving quality plus the 3 dB offset, or the serving
quality is below −105 dBm while `r` is above it.  In particular, with
serving quality −100 dBm a candidate at −96 dBm triggers a handover,
and a candidate at −102 dBm does not. -/
theorem handover_decision (gnbs : List ℕ) (qu : ℕ → α) (st : NetState α)
    (u c : ℕ) (r : α)
    (hb : bestCandidate gnbs qu (st.conn u) = some (c, r)) :
    (c ∈ gnbs ∧ qu c = r ∧ -105 < r ∧ st.conn u ≠ some c ∧
      ∀ g ∈ gnbs, st.conn u ≠ some g → -105 < qu g → qu g ≤ r) ∧
    (handoverPhase gnbs qu st u
        = logEvent (connect_to_gnb st u (some c)) (.handover u (st.conn u) c)
      ↔ (currentRsrp qu (st.conn u) + 3 < ((r : α) : WithBot α)
          ∨ (currentRsrp qu (st.conn u) < (((-105 : α)) : WithBot α)
            ∧ (-105 : α) < r))) ∧
    (updateUE [1, 2] (fun g => if g = 1 then (-100 : ℤ) else -96)
      ⟨fun _ => some 1, fun g => if g = 1 then [1] else [], [], []⟩ 1).conn 1
      = some 2 ∧
    (updateUE [1, 2] (fun g => if g = 1 then (-100 : ℤ) else -96)
      ⟨fun _ => some 1, fun g => if g = 1 then [1] else [], [], []⟩
      1).event_log = [Event.handover 1 (some 1) 2] ∧
    (updateUE [1, 2] (fun g => if g = 1 then (-100 : ℤ) else -102)
      ⟨fun _ => some 1, fun g => if g = 1 then [1] else [], [], []⟩ 1).conn 1
      = some 1 ∧
    (updateUE [1, 2] (fun g => if g = 1 then (-100 : ℤ) else -102)
      ⟨fun _ => some 1, fun g => if g = 1 then [1] else [], [], []⟩
      1).event_log = [] := by
  refine ⟨bestCandidate_spec hb, ⟨?_, ?_⟩, by decide, by decide, by decide,
    by decide⟩
  · intro hEq
    by_contra hcond
    unfold handoverPhase at hEq
    rw [hb] at hEq
    dsimp only at hEq
    rw [if_neg hcond] at hEq
    have hlen := congrArg (fun s => s.event_log.length) hEq
    simp only [logEvent, connect_to_gnb_event_log, List.length_append,
      List.length_singleton] at hlen
    omega
  · intro hcond
    unfold handoverPhase
    rw [hb]
    dsimp only
    rw [if_pos hcond]

/-- C2 witness: a concrete two-station instance (serving quality −100,
candidate quality −96 over the integers) satisfies the best-candidate
hypothesis, and the theorem applies to it. -/
theorem handover_decision_witness :
    bestCandidate [1, 2] (fun g => if g = 1 then (-100 : ℤ) else -96)
      ((⟨fun _ => some 1, fun g => if g = 1 then [1] else [], [], []⟩
        : NetState ℤ).conn 1) = some (2, -96) ∧
    (handoverPhase [1, 2] (fun g => if g = 1 then (-100 : ℤ) else -96)
        (⟨fun _ => some 1, fun g => if g = 1 then [1] else [], [], []⟩
          : NetState ℤ) 1
      = logEvent (connect_to_gnb
          (⟨fun _ => some 1, fun g => if g = 1 then [1] else [], [], []⟩
            : NetState ℤ) 1 (some 2))
        (.handover 1 ((⟨fun _ => some 1, fun g => if g = 1 then [1] else [],
            [], []⟩ : NetState ℤ).conn 1) 2)) := by
  refine ⟨by decide, ?_⟩
  exact ((handover_decision [1, 2] (fun g => if g = 1 then (-100 : ℤ) else -96)
    (⟨fun _ => some 1, fun g => if g = 1 then [1] else [], [], []⟩ : NetState ℤ)
    1 2 (-96) (by decide)).2.1).mpr (by decide)

/-! ### Measurement-log characterization (claim C7) -/

lemma connect_to_gnb_rsrp_log (st : NetState α) (u : ℕ) (target : Option ℕ) :
    (connect_to_gnb st u target).rsrp_log = st.rsrp_log := by
  unfold connect_to_gnb
  split <;> rfl

lemma logRsrp_foldl (qu : ℕ → α) (u : ℕ) (conn0 : Option ℕ) :
    ∀ (gnbs : List ℕ) (s : NetState α),
    (gnbs.foldl
      (fun s g => if conn0 ≠ some g then logRsrp s u g (qu g) else s)
      s).rsrp_log
      = s.rsrp_log
        ++ (gnbs.filter (fun g => conn0 ≠ some g)).map (fun g => (u, g, qu g)) := by
  intro gnbs
  induction gnbs with
  | nil => simp
  | cons g gnbs ih =>
      intro s
      rw [List.foldl_cons, List.filter_cons]
      by_cases hc : conn0 ≠ some g
      · rw [if_pos hc, ih]
        simp [hc, logRsrp]
      · rw [if_neg hc, ih]
        simp [hc]

lemma measurementPhase_rsrp_log (gnbs : List ℕ) (qu : ℕ → α)
    (st : NetState α) (u : ℕ) :
    (measurementPhase gnbs qu st u).rsrp_log =
      st.rsrp_log
        ++ (match st.conn u with
            | some s => [(u, s, qu s)]
            | none => [])
        ++ (gnbs.filter (fun g => st.conn u ≠ some g)).map
            (fun g => (u, g, qu g)) := by
  unfold measurementPhase
  rw [logRsrp_foldl]
  cases st.conn u <;> simp [logRsrp]

lemma handoverPhase_rsrp_log (gnbs : List ℕ) (qu : ℕ → α)
    (st : NetState α) (u : ℕ) :
    (handoverPhase gnbs qu st u).rsrp_log = st.rsrp_log := by
  unfold handoverPhase
  cases bestCandidate gnbs qu (st.conn u) with
  | none => rfl
  | some p =>
      obtain ⟨bg, br⟩ := p
      dsimp only
      split
      · show (logEvent (connect_to_gnb st u (some bg)) _).rsrp_log = _
        rw [show (logEvent (connect_to_gnb st u (some bg))
            (.handover u (st.conn u) bg)).rsrp_log
          = (connect_to_gnb st u (some bg)).rsrp_log from rfl]
        exact connect_to_gnb_rsrp_log st u (some bg)
      · rfl

lemma coveragePhase_rsrp_log (gnbs : List ℕ) (qu : ℕ → α)
    (st : NetState α) (u : ℕ) :
    (coveragePhase gnbs qu st u).rsrp_log = st.rsrp_log := by
  unfold coveragePhase
  cases st.conn u with
  | none => rfl
  | some g =>
      dsimp only
      split
      · cases (reconnectSearch gnbs qu).1 with
        | some bg =>
            dsimp only
            rw [show (logEvent (connect_to_gnb (connect_to_gnb
                  (logEvent st (.coverageLost u g)) u none) u (some bg))
                  (.reconnected u bg)).rsrp_log
              = (connect_to_gnb (connect_to_gnb
                  (logEvent st (.coverageLost u g)) u none) u (some bg)).rsrp_log
              from rfl]
            rw [connect_to_gnb_rsrp_log, connect_to_gnb_rsrp_log]
            rfl
        | none =>
            dsimp only
            rw [show (logEvent (connect_to_gnb
                  (logEvent st (.coverageLost u g)) u none)
                  (.noSuitable u)).rsrp_log
              = (connect_to_gnb
                  (logEvent st (.coverageLost u g)) u none).rsrp_log from rfl]
            rw [connect_to_gnb_rsrp_log]
            rfl
      · rfl

/-! ### Theorems for claim C7 -/

/-- C7 counterexample: with serving station 1 at −100 dBm and
non-serving station 2 at −120 dBm — at or below the −105 dBm floor
threshold — the tick still appends a measurement sample for station 2,
so samples are not restricted to the serving station and the
above-threshold candidates. -/
theorem measurement_logged_below_threshold :
    ((1, 2, (-120 : ℤ)) ∈ (updateUE [1, 2]
      (fun g => if g = 1 then (-100 : ℤ) else -120)
      ⟨fun v => if v = 1 then some 1 else none,
        fun g => if g = 1 then [1] else [], [], []⟩ 1).rsrp_log) ∧
    ((⟨fun v => if v = 1 then some 1 else none,
        fun g => if g = 1 then [1] else [], [], []⟩ : NetState ℤ).conn 1
      ≠ some 2) ∧
    ((-120 : ℤ) ≤ -105) := by decide

/-- C7 as amended: each tick, for each UE, `update_connections` appends
exactly one measurement sample for the serving station (when connected)
followed by one sample for every non-serving station in iteration
order, regardless of whether the non-serving station's quality clears
the −105 dBm floor threshold; the threshold only gates handover
candidacy. -/
theorem measurement_log_shape (gnbs : List ℕ) (qu : ℕ → α)
    (st : NetState α) (u : ℕ) :
    (updateUE gnbs qu st u).rsrp_log =
      st.rsrp_log
        ++ (match st.conn u with
            | some s => [(u, s, qu s)]
            | none => [])
        ++ (gnbs.filter (fun g => st.conn u ≠ some g)).map
            (fun g => (u, g, qu g)) := by
  unfold updateUE
  rw [coveragePhase_rsrp_log, handoverPhase_rsrp_log]
  exact measurementPhase_rsrp_log gnbs qu st u

/-! ### Characterization of the reconnection search (claim C3) -/

lemma connect_to_gnb_conn_self (st : NetState α) (u : ℕ)
    (target : Option ℕ) : (connect_to_gnb st u target).conn u = target := by
  unfold connect_to_gnb
  split
  · rename_i h
    exact h
  · show (if u = u then target else st.conn u) = target
    rw [if_pos rfl]

lemma reconnect_ne_none (qu : ℕ → α) :
    ∀ (l : List ℕ) (b : ℕ) (x : WithBot α),
    (l.foldl (reconnectStep qu) (some b, x)).1 = none → False := by
  intro l
  induction l with
  | nil =>
      intro b x h
      exact Option.noConfusion h
  | cons a l ih =>
      intro b x h
      rw [List.foldl_cons] at h
      by_cases hc : (x < ((qu a : α) : WithBot α) ∧ -110 ≤ qu a)
      · rw [show reconnectStep qu (some b, x) a
            = (some a, ((qu a : α) : WithBot α)) from by
          unfold reconnectStep
          rw [if_pos hc]] at h
        exact ih a _ h
      · rw [show reconnectStep qu (some b, x) a = (some b, x) from by
          unfold reconnectStep
          rw [if_neg hc]] at h
        exact ih b x h

lemma reconnect_none_aux (qu : ℕ → α) :
    ∀ (l : List ℕ) (acc : Option ℕ × WithBot α),
    (l.foldl (reconnectStep qu) acc).1 = none →
    l.foldl (reconnectStep qu) acc = acc
      ∧ ∀ g ∈ l, ¬(acc.2 < ((qu g : α) : WithBot α) ∧ -110 ≤ qu g) := by
  intro l
  induction l with
  | nil =>
      intro acc _
      exact ⟨rfl, by simp⟩
  | cons a l ih =>
      intro acc h
      rw [List.foldl_cons] at h ⊢
      by_cases hc : (acc.2 < ((qu a : α) : WithBot α) ∧ -110 ≤ qu a)
      · exfalso
        rw [show reconnectStep qu acc a
            = (some a, ((qu a : α) : WithBot α)) from by
          unfold reconnectStep
          rw [if_pos hc]] at h
        exact reconnect_ne_none qu l a _ h
      · rw [show reconnectStep qu acc a = acc from by
          unfold reconnectStep
          rw [if_neg hc]] at h ⊢
        obtain ⟨h1, h2⟩ := ih acc h
        refine ⟨h1, ?_⟩
        intro g hg
        rcases List.mem_cons.mp hg with rfl | hg
        · exact hc
        · exact h2 g hg

lemma reconnectSearch_none {gnbs : List ℕ} {qu : ℕ → α}
    (h : (reconnectSearch gnbs qu).1 = none) :
    ∀ g ∈ gnbs, qu g < -110 := by
  obtain ⟨_, h2⟩ := reconnect_none_aux qu gnbs ((none : Option ℕ), (⊥ : WithBot α)) h
  intro g hg
  by_contra hge
  exact h2 g hg ⟨WithBot.bot_lt_coe _, le_of_not_lt hge⟩

lemma reconnect_some_aux (qu : ℕ → α) :
    ∀ (l : List ℕ) (acc : Option ℕ × WithBot α),
    (∀ b, acc.1 = some b → -110 ≤ qu b
      ∧ acc.2 = ((qu b : α) : WithBot α)) →
    ((∀ b, (l.foldl (reconnectStep qu) acc).1 = some b →
        (-110 ≤ qu b
          ∧ (l.foldl (reconnectStep qu) acc).2 = ((qu b : α) : WithBot α))
        ∧ (acc.1 = some b ∨ b ∈ l))
      ∧ acc.2 ≤ (l.foldl (reconnectStep qu) acc).2
      ∧ ∀ g ∈ l, -110 ≤ qu g →
          ((qu g : α) : WithBot α) ≤ (l.foldl (reconnectStep qu) acc).2) := by
  intro l
  induction l with
  | nil =>
      intro acc hacc
      exact ⟨fun b hb => ⟨hacc b hb, Or.inl hb⟩, le_refl _, by simp⟩
  | cons a l ih =>
      intro acc hacc
      rw [List.foldl_cons]
      by_cases hc : (acc.2 < ((qu a : α) : WithBot α) ∧ -110 ≤ qu a)
      · rw [show reconnectStep qu acc a
            = (some a, ((qu a : α) : WithBot α)) from by
          unfold reconnectStep
          rw [if_pos hc]]
        have hacc2 : ∀ b, (some a, ((qu a : α) : WithBot α)).1 = some b →
            -110 ≤ qu b
              ∧ (some a, ((qu a : α) : WithBot α)).2 = ((qu b : α) : WithBot α) := by
          intro b hb
          obtain rfl : a = b := Option.some.inj hb
          exact ⟨hc.2, rfl⟩
        obtain ⟨ihs, ihle, ihall⟩ := ih (some a, ((qu a : α) : WithBot α)) hacc2
        refine ⟨?_, ?_, ?_⟩
        · intro b hb
          obtain ⟨hq, hmem⟩ := ihs b hb
          refine ⟨hq, ?_⟩
          rcases hmem with h1 | h1
          · obtain rfl : a = b := Option.some.inj h1
            exact Or.inr (List.mem_cons_self a l)
          · exact Or.inr (List.mem_cons_of_mem a h1)
        · exact le_trans (le_of_lt hc.1) ihle
        · intro g hg hq
          rcases List.mem_cons.mp hg with rfl | hg
          · exact ihle
          · exact ihall g hg hq
      · rw [show reconnectStep qu acc a = acc from by
          unfold reconnectStep
          rw [if_neg hc]]
        obtain ⟨ihs, ihle, ihall⟩ := ih acc hacc
        refine ⟨?_, ihle, ?_⟩
        · intro b hb
          obtain ⟨hq, hmem⟩ := ihs b hb
          refine ⟨hq, ?_⟩
          rcases hmem with h1 | h1
          · exact Or.inl h1
          · exact Or.inr (List.mem_cons_of_mem a h1)
        · intro g hg hq
          rcases List.mem_cons.mp hg with rfl | hg
          · by_cases hlt : acc.2 < ((qu g : α) : WithBot α)
            · exact absurd ⟨hlt, hq⟩ hc
            · exact le_trans (le_of_not_lt hlt) ihle
          · exact ihall g hg hq

lemma reconnectSearch_some {gnbs : List ℕ} {qu : ℕ → α} {b : ℕ}
    (h : (reconnectSearch gnbs qu).1 = some b) :
    b ∈ gnbs ∧ -110 ≤ qu b ∧ ∀ g ∈ gnbs, -110 ≤ qu g → qu g ≤ qu b := by
  have hbase : ∀ b2, ((none : Option ℕ), (⊥ : WithBot α)).1 = some b2 →
      -110 ≤ qu b2
        ∧ ((none : Option ℕ), (⊥ : WithBot α)).2 = ((qu b2 : α) : WithBot α) :=
    fun b2 hb2 => Option.noConfusion hb2
  obtain ⟨hs, _, hall⟩ := reconnect_some_aux qu gnbs _ hbase
  obtain ⟨⟨hq, hval⟩, hmem⟩ := hs b h
  refine ⟨?_, hq, ?_⟩
  · rcases hmem with h1 | h1
    · exact Option.noConfusion h1
    · exact h1
  · intro g hg hgq
    have := hall g hg hgq
    rw [hval] at this
    exact WithBot.coe_le_coe.mp this

/-! ### Theorems for claim C3 -/

/-- C3 counterexample: serving station 1 at −111 dBm (below the −110
dBm coverage threshold) and station 2 at exactly −110 dBm.  No station
is strictly above −110 dBm, so the claim predicts a no-suitable-station
event and a disconnected UE; the code reattaches to station 2 because
`is_in_coverage` accepts quality equal to the threshold. -/
theorem coverage_reattach_at_threshold :
    ((coveragePhase [1, 2] (fun g => if g = 1 then (-111 : ℤ) else -110)
        ⟨fun v => if v = 1 then some 1 else none,
          fun g => if g = 1 then [1] else [], [], []⟩ 1).conn 1 = some 2) ∧
    (Event.noSuitable 1 ∉
      (coveragePhase [1, 2] (fun g => if g = 1 then (-111 : ℤ) else -110)
        ⟨fun v => if v = 1 then some 1 else none,
          fun g => if g = 1 then [1] else [], [], []⟩ 1).event_log) ∧
    ((fun g => if g = 1 then (-111 : ℤ) else -110) 1 < -110) ∧
    (∀ g ∈ [1, 2],
      ¬ ((-110 : ℤ) < (fun g => if g = 1 then (-111 : ℤ) else -110) g)) := by
  decide

/-- C3 as amended: for a connected UE whose serving station's quality
sample is below the −110 dBm coverage threshold, the coverage check
appends a coverage-loss event and detaches the UE; if some station's
quality is at or above −110 dBm (the threshold comparison is
inclusive), the UE is reattached in the same tick to a maximal-quality
such station and a reconnect event is appended, otherwise a
no-suitable-station event is appended and the UE remains disconnected,
appearing in no served list; consistency is preserved. -/
theorem coverage_loss_handling (gnbs : List ℕ) (qu : ℕ → α)
    (st : NetState α) (u s : ℕ) (hC : Consistent st)
    (hconn : st.conn u = some s) (hlow : qu s < -110) :
    Event.coverageLost u s ∈ (coveragePhase gnbs qu st u).event_log ∧
    ((∃ g ∈ gnbs, -110 ≤ qu g) →
      ∃ b, (coveragePhase gnbs qu st u).conn u = some b ∧ b ∈ gnbs
        ∧ -110 ≤ qu b ∧ (∀ g ∈ gnbs, -110 ≤ qu g → qu g ≤ qu b)
        ∧ Event.reconnected u b ∈ (coveragePhase gnbs qu st u).event_log) ∧
    ((∀ g ∈ gnbs, qu g < -110) →
      (coveragePhase gnbs qu st u).conn u = none
        ∧ Event.noSuitable u ∈ (coveragePhase gnbs qu st u).event_log
        ∧ ∀ g, u ∉ (coveragePhase gnbs qu st u).served g) ∧
    Consistent (coveragePhase gnbs qu st u) := by
  have hred : coveragePhase gnbs qu st u
      = match (reconnectSearch gnbs qu).1 with
        | some bg =>
            logEvent
              (connect_to_gnb
                (connect_to_gnb (logEvent st (.coverageLost u s)) u none)
                u (some bg))
              (.reconnected u bg)
        | none =>
            logEvent
              (connect_to_gnb (logEvent st (.coverageLost u s)) u none)
              (.noSuitable u) := by
    unfold coveragePhase
    rw [hconn]
    dsimp only
    rw [if_pos hlow]
  cases hrs : (reconnectSearch gnbs qu).1 with
  | some bg =>
      rw [hred, hrs]
      dsimp only
      obtain ⟨hbmem, hbq, hbmax⟩ := reconnectSearch_some hrs
      have hCfinal : Consistent (logEvent (connect_to_gnb
          (connect_to_gnb (logEvent st (.coverageLost u s)) u none)
          u (some bg)) (.reconnected u bg)) :=
        consistent_logEvent _ (connect_to_gnb_consistent
          (connect_to_gnb_consistent (consistent_logEvent _ hC) u none)
          u (some bg))
      refine ⟨?_, ?_, ?_, hCfinal⟩
      · simp [logEvent, connect_to_gnb_event_log]
      · intro _
        refine ⟨bg, ?_, hbmem, hbq, hbmax, ?_⟩
        · show (connect_to_gnb (connect_to_gnb
              (logEvent st (.coverageLost u s)) u none) u (some bg)).conn u
            = some bg
          exact connect_to_gnb_conn_self _ u (some bg)
        · simp [logEvent, connect_to_gnb_event_log]
      · intro hall
        exact absurd hbq (not_le.mpr (hall bg hbmem))
  | none =>
      rw [hred, hrs]
      dsimp only
      have hCfinal : Consistent (logEvent (connect_to_gnb
          (logEvent st (.coverageLost u s)) u none) (.noSuitable u)) :=
        consistent_logEvent _
          (connect_to_gnb_consistent (consistent_logEvent _ hC) u none)
      have hconnNone : (logEvent (connect_to_gnb
          (logEvent st (.coverageLost u s)) u none) (.noSuitable u)).conn u
          = none := by
        show (connect_to_gnb (logEvent st (.coverageLost u s)) u none).conn u
          = none
        exact connect_to_gnb_conn_self _ u none
      refine ⟨?_, ?_, ?_, hCfinal⟩
      · simp [logEvent, connect_to_gnb_event_log]
      · intro ⟨g, hg, hge⟩
        exact absurd (reconnectSearch_none hrs g hg) (not_lt.mpr hge)
      · intro _
        refine ⟨hconnNone, by simp [logEvent, connect_to_gnb_event_log], ?_⟩
        intro g hmem
        have := (hCfinal.1 u g).mpr hmem
        rw [hconnNone] at this
        exact Option.noConfusion this

/-- C3 witness: a concrete instance over the integers — serving station
1 at −120 dBm, station 2 at −100 dBm — satisfies the hypotheses, and by
the theorem the UE loses coverage and is reattached to station 2 within
the tick. -/
theorem coverage_loss_handling_witness :
    Consistent (⟨fun v => if v = 1 then some 1 else none,
      fun g => if g = 1 then [1] else [], [], []⟩ : NetState ℤ) ∧
    ((⟨fun v => if v = 1 then some 1 else none,
      fun g => if g = 1 then [1] else [], [], []⟩ : NetState ℤ).conn 1
      = some 1) ∧
    ((fun g => if g = 1 then (-120 : ℤ) else -100) 1 < -110) ∧
    Event.coverageLost 1 1 ∈
      (coveragePhase [1, 2] (fun g => if g = 1 then (-120 : ℤ) else -100)
        ⟨fun v => if v = 1 then some 1 else none,
          fun g => if g = 1 then [1] else [], [], []⟩ 1).event_log := by
  have hC : Consistent (⟨fun v => if v = 1 then some 1 else none,
      fun g => if g = 1 then [1] else [], [], []⟩ : NetState ℤ) := by
    constructor
    · intro u g
      by_cases hu : u = 1 <;> by_cases hg : g = 1 <;> simp [hu, hg] <;> omega
    · intro u g
      refine le_trans (List.count_le_length u _) ?_
      by_cases hg : g = 1 <;> simp [hg]
  refine ⟨hC, rfl, by decide, ?_⟩
  exact (coverage_loss_handling [1, 2]
    (fun g => if g = 1 then (-120 : ℤ) else -100)
    (⟨fun v => if v = 1 then some 1 else none,
      fun g => if g = 1 then [1] else [], [], []⟩ : NetState ℤ)
    1 1 hC rfl (by decide)).1

/-! ### Theorems for claim C4 -/

/-- C4 counterexample: a moving trajectory UE with an empty waypoint
list that draws neither a pause nor a stop: `move` hits the
`if not self.waypoints: return` early exit and appends no trace sample,
so the trace (initially empty) stays empty instead of growing by one. -/
theorem move_empty_waypoints_no_sample :
    (move ⟨0, 0, .trajectory, 1, 0, true, [], 0, none, 0, 0, []⟩
      ⟨false, false, false, 0⟩ 1 (1000, 1000) 5).trajectory = [] := by
  simp [move]

/-- C4 as amended: one `move` call appends exactly one trace sample in
every case — any behavior, pausing, resuming — except when a moving,
non-stopping UE is a trajectory UE with an empty waypoint list or a
group UE with no group center, in which case it appends none (the
source returns before `record_position` in those two branches). -/
theorem move_trace_growth (st : UEMove) (r : MoveRand) (time_step : ℝ)
    (boundary : ℝ × ℝ) (t : ℝ) :
    (move st r time_step boundary t).trajectory.length
      = st.trajectory.length
        + (if (st.is_moving = true ∨ r.resumeDraw = true) ∧ r.stopDraw = false
              ∧ ((st.mobility_type = .trajectory ∧ st.waypoints = [])
                ∨ (st.mobility_type = .group ∧ st.group_center = none))
           then 0 else 1) := by
  unfold move
  cases hm : st.is_moving <;> cases hr : r.resumeDraw <;> cases hs : r.stopDraw <;>
    cases hmt : st.mobility_type <;>
      by_cases hw : st.waypoints = [] <;>
        cases hgc : st.group_center <;>
          simp [UEMove.record_position, hw, hm, hr, hs, hmt, hgc] <;>
            (try split) <;>
              simp [UEMove.record_position]

/-! ### Theorems for claim C6 -/

/-- C6 counterexample: a random-walk UE at (1/2, 1/2) in a 1 × 1 area,
heading π, speed 10, time step 1: the tentative x is −19/2, the mirror
reflection produces 19/2, which is far outside the area — the
reflection is not re-checked against the opposite boundary, so a single
step of sufficient length leaves the area. -/
theorem random_walk_leaves_area :
    ¬ ((move ⟨1/2, 1/2, .random_walk, 10, Real.pi, true, [], 0, none, 0, 0, []⟩
        ⟨false, false, false, 0⟩ 1 (1, 1) 0).x ≤ 1) := by
  have hx : (move ⟨1/2, 1/2, .random_walk, 10, Real.pi, true, [], 0, none, 0, 0, []⟩
      ⟨false, false, false, 0⟩ 1 (1, 1) 0).x = 19 / 2 := by
    simp [move, UEMove.record_position, Real.cos_pi, Real.sin_pi]
    norm_num
  rw [hx]
  norm_num

/-- C6 as amended: a single `move` step of a random-walk UE starting
inside `[0, b1] × [0, b2]` stays inside the area — the boundary
crossing is handled by mirror reflection and heading inversion —
provided the step length `speed · time_step` is nonnegative and does
not exceed either area dimension (the counterexample shows the bound is
necessary for arbitrary speeds). -/
theorem random_walk_stays_in_area (st : UEMove) (r : MoveRand)
    (time_step b1 b2 t : ℝ)
    (hmt : st.mobility_type = .random_walk)
    (hx0 : 0 ≤ st.x) (hxb : st.x ≤ b1) (hy0 : 0 ≤ st.y) (hyb : st.y ≤ b2)
    (hd0 : 0 ≤ st.speed * time_step)
    (hdx : st.speed * time_step ≤ b1) (hdy : st.speed * time_step ≤ b2) :
    0 ≤ (move st r time_step (b1, b2) t).x
    ∧ (move st r time_step (b1, b2) t).x ≤ b1
    ∧ 0 ≤ (move st r time_step (b1, b2) t).y
    ∧ (move st r time_step (b1, b2) t).y ≤ b2 := by
  unfold move
  by_cases h1 : ¬ st.is_moving = true ∧ ¬ r.resumeDraw = true
  · rw [if_pos h1]
    exact ⟨hx0, hxb, hy0, hyb⟩
  · rw [if_neg h1]
    by_cases h2 : r.stopDraw = true
    · rw [if_pos h2]
      exact ⟨hx0, hxb, hy0, hyb⟩
    · rw [if_neg h2]
      dsimp only
      rw [hmt]
      dsimp only
      set θ := if r.dirChangeDraw = true then r.newDir else st.direction with hθ
      have hδx : |st.speed * time_step * Real.cos θ| ≤ b1 := by
        calc |st.speed * time_step * Real.cos θ|
            = |st.speed * time_step| * |Real.cos θ| := abs_mul _ _
          _ ≤ |st.speed * time_step| * 1 :=
              mul_le_mul_of_nonneg_left (Real.abs_cos_le_one θ) (abs_nonneg _)
          _ = |st.speed * time_step| := mul_one _
          _ = st.speed * time_step := abs_of_nonneg hd0
          _ ≤ b1 := hdx
      have hδy : |st.speed * time_step * Real.sin θ| ≤ b2 := by
        calc |st.speed * time_step * Real.sin θ|
            = |st.speed * time_step| * |Real.sin θ| := abs_mul _ _
          _ ≤ |st.speed * time_step| * 1 :=
              mul_le_mul_of_nonneg_left (Real.abs_sin_le_one θ) (abs_nonneg _)
          _ = |st.speed * time_step| := mul_one _
          _ = st.speed * time_step := abs_of_nonneg hd0
          _ ≤ b2 := hdy
      obtain ⟨hx1, hx2⟩ := abs_le.mp hδx
      obtain ⟨hy1, hy2⟩ := abs_le.mp hδy
      split_ifs <;> refine ⟨?_, ?_, ?_, ?_⟩ <;>
        dsimp only [UEMove.record_position] <;> linarith

/-- C6 witness: a unit-speed random-walk UE at the center of the unit
area satisfies the hypotheses, and by the theorem its position after
one step stays inside the area. -/
theorem random_walk_stays_in_area_witness :
    (⟨1/2, 1/2, .random_walk, 1, 0, true, [], 0, none, 0, 0, []⟩
      : UEMove).mobility_type = .random_walk ∧
    (0 ≤ (move ⟨1/2, 1/2, .random_walk, 1, 0, true, [], 0, none, 0, 0, []⟩
        ⟨false, false, false, 0⟩ 1 (1, 1) 0).x
      ∧ (move ⟨1/2, 1/2, .random_walk, 1, 0, true, [], 0, none, 0, 0, []⟩
        ⟨false, false, false, 0⟩ 1 (1, 1) 0).x ≤ 1
      ∧ 0 ≤ (move ⟨1/2, 1/2, .random_walk, 1, 0, true, [], 0, none, 0, 0, []⟩
        ⟨false, false, false, 0⟩ 1 (1, 1) 0).y
      ∧ (move ⟨1/2, 1/2, .random_walk, 1, 0, true, [], 0, none, 0, 0, []⟩
        ⟨false, false, false, 0⟩ 1 (1, 1) 0).y ≤ 1) := by
  refine ⟨rfl, ?_⟩
  exact random_walk_stays_in_area
    ⟨1/2, 1/2, .random_walk, 1, 0, true, [], 0, none, 0, 0, []⟩
    ⟨false, false, false, 0⟩ 1 1 1 0 rfl (by norm_num) (by norm_num)
    (by norm_num) (by norm_num) (by norm_num) (by norm_num) (by norm_num)
